import Mathlib

/-!
Verification development for the VulnAnalysisTool fixture scripts and the
asset-inventory core they exercise.

Text is modelled as `List Char` (`Str`).  The Oracle-advisory extraction is
embedded from the scanning loop of `check_oracle_advisories.py` (lines 41-48);
the spreadsheet-append routine is embedded from `add_real_weblogic_cves.py`
(lines 131-148).  The Path Classifier and Version-Extraction Gate are not part
of the scripts themselves, so they are modelled from the specification, with
the filesystem as an explicit oracle `Fs`.
-/

abbrev Str := List Char

deriving instance DecidableEq for Except

/-- Lowercase every character, the embedding of Python `str.lower()`. -/
def lower (s : Str) : Str := s.map Char.toLower

/-- Strip leading and trailing whitespace, the embedding of Python `str.strip()`. -/
def trim (s : Str) : Str :=
  ((s.dropWhile Char.isWhitespace).reverse.dropWhile Char.isWhitespace).reverse

/-- The character map performed by `refs_str.replace(';','\n').replace(',','\n')`. -/
def delimToNl (c : Char) : Char := if c = ';' ∨ c = ',' then '\n' else c

/-- Split accumulator: `cur` holds the current token reversed. -/
def splitPAux (p : Char → Bool) (cur : Str) : Str → List Str
  | [] => [cur.reverse]
  | c :: rest =>
    if p c then cur.reverse :: splitPAux p [] rest
    else splitPAux p (c :: cur) rest

/-- Split a string at every character satisfying `p`, keeping empty pieces,
the embedding of Python `str.split` with a single-character separator. -/
def splitP (p : Char → Bool) (s : Str) : List Str := splitPAux p [] s

/-- `python`'s `s.split('\n')`. -/
def splitNl (s : Str) : List Str := splitP (fun c => c = '\n') s

/-- Substring test, the embedding of Python `needle in hay`. -/
def containsSub (needle : Str) : Str → Bool
  | [] => needle.isEmpty
  | c :: rest => needle.isPrefixOf (c :: rest) || containsSub needle rest

/-- The literal `'oracle.com'` searched for by the scripts. -/
def oracleL : Str := "oracle.com".toList

/-- The token sequence the scanner works through: the references text with
`;` and `,` replaced by newlines, split on newlines, each piece stripped. -/
def tokensOf (refsStr : Str) : List Str :=
  (splitNl (refsStr.map delimToNl)).map trim

/-- Embedding of the Oracle-URL extraction of `check_oracle_advisories.py`
lines 41-48: guarded by `"oracle.com" in refs_str.lower()`, then split on the
delimiters, strip each part, and keep the parts whose lowercase form contains
`oracle.com`. -/
def extractAdvisories (refsStr : Str) : List Str :=
  if containsSub oracleL (lower refsStr) then
    (tokensOf refsStr).filter (fun part => containsSub oracleL (lower part))
  else []

/-- The extraction algorithm exactly as the specification sentence states it:
split on `;` and `,` only, trim whitespace, drop empty tokens, retain the
tokens whose lowercase form contains `oracle.com`. -/
def extractAdvisoriesClaimed (refsStr : Str) : List Str :=
  ((splitP (fun c => c = ';' || c = ',') refsStr).map trim).filter
    (fun t => !t.isEmpty && containsSub oracleL (lower t))

/-- The specification sentence amended to match the implementation: the
implementation rewrites `;` and `,` to newline and splits on newline, so a
literal newline in the references text also acts as a delimiter. -/
def extractAdvisoriesAmended (refsStr : Str) : List Str :=
  ((splitP (fun c => c = ';' || c = ',' || c = '\n') refsStr).map trim).filter
    (fun t => !t.isEmpty && containsSub oracleL (lower t))

/-- Spec enum for the per-CVE WebLogic flag. -/
inductive WLFlag | Y | N
deriving DecidableEq

/-- The CVE record of the data model (spec §3). -/
structure CveRecord where
  id : Str
  description : Str
  references : Str
  affectedSoftware : Str
  weblogicFlag : Option WLFlag
  oracleAdvisories : List Str
deriving DecidableEq

/-- Modelled from the spec: the scripts read CveRecord rows whose
`oracleAdvisories` column was populated externally; per spec §3/§4.3 that
column holds the advisory URLs extracted from the `references` field, so a
record is built with `oracleAdvisories := extractAdvisories references`. -/
def mkCveRecord (id description references affectedSoftware : Str)
    (weblogicFlag : Option WLFlag) : CveRecord :=
  { id := id, description := description, references := references,
    affectedSoftware := affectedSoftware, weblogicFlag := weblogicFlag,
    oracleAdvisories := extractAdvisories references }

/-! ## Path Classifier and Version-Extraction Gate (modelled from the spec) -/

inductive Platform | Windows | Linux | Other
deriving DecidableEq

inductive PathStatus | Valid | Missing | Invalid | Malformed | Repaired
deriving DecidableEq

structure PathClassification where
  status : PathStatus
  resolvedPath : Option Str
  repairNote : Option Str
deriving DecidableEq

inductive FileKind | Archive | Executable | Other
deriving DecidableEq

inductive GateReason
  | NotApplicablePlatform | FileKindUnsupported | PathUnresolved | Eligible
deriving DecidableEq

structure VersionExtractionDecision where
  attempt : Bool
  reason : GateReason
deriving DecidableEq

/-- Outcome of one filesystem existence probe (spec §6: `exists(path)`,
which may also fail with an access error per §4.1/§5). -/
inductive ProbeResult
  | found
  | absent
  | error (msg : Str)
deriving DecidableEq

/-- The filesystem oracle a classification run is performed against. -/
abbrev Fs := Str → ProbeResult

/-- The final path-separator-delimited segment of a path (both `/` and `\`
are treated as separators, covering the two platform syntaxes of §4.1). -/
def lastSegment (p : Str) : Str :=
  (p.reverse.takeWhile (fun c => !(c = '/' || c = '\\'))).reverse

/-- Modelled from the spec (§4.2): file kind derived from the path's
extension, case-insensitively: `.jar`/`.war`/`.ear` are archives,
`.exe`/`.dll` executables, anything else `Other`. -/
def fileKindOf (p : Str) : FileKind :=
  if [".jar", ".war", ".ear"].any (fun e => e.toList.isSuffixOf (lower p)) then
    .Archive
  else if [".exe", ".dll"].any (fun e => e.toList.isSuffixOf (lower p)) then
    .Executable
  else .Other

/-- A path ends in one of the known binary suffixes of §4.1/§4.2. -/
def plausibleExt (p : Str) : Bool := fileKindOf p ≠ FileKind.Other

/-- The path has a syntactically valid file extension: its last segment has a
dot with a non-empty extension after it (spec §4.1 step 4). -/
def hasFileExtension (p : Str) : Bool :=
  let seg := lastSegment p
  let ext := seg.reverse.takeWhile (fun c => c ≠ '.')
  decide (ext.length < seg.length) && !ext.isEmpty

/-- Whether the character at offset `n` exists and is whitespace. -/
def nextCharIsWs (p : Str) (n : Nat) : Bool :=
  match p.drop n with
  | [] => false
  | c :: _ => c.isWhitespace

/-- Modelled from the spec (§4.1 step 3): the repair candidates of a path are
its proper prefixes that end in a plausible binary suffix and are followed by
whitespace (the start of the trailing garbage), longest first. -/
def repairCandidates (p : Str) : List Str :=
  (List.range p.length).reverse.filterMap (fun n =>
    if nextCharIsWs p n && plausibleExt (p.take n) then some (p.take n)
    else none)

/-- The repair note describing what was discarded (§4.1 step 3). -/
def repairNoteFor (raw q : Str) : Str :=
  "discarded trailing garbage:".toList ++ raw.drop q.length

/-- Probe the repair candidates in order; the first existing one wins, and a
probe error aborts the repair with that error (§4.1 failure rule). -/
def tryRepair (fs : Fs) : List Str → Except Str (Option Str)
  | [] => .ok none
  | q :: rest =>
    match fs q with
    | .found => .ok (some q)
    | .absent => tryRepair fs rest
    | .error m => .error m

/-- Modelled from the spec (§4.1): the Path Classifier.  Steps in order:
empty/sentinel input is `Invalid` with no probe; otherwise probe the raw path
(`Valid` if found, `Invalid` carrying the message on an access error); on
absence attempt repair (`Repaired` on success, `Invalid` on a probe error);
otherwise `Missing` when the path has a valid extension, else `Malformed`. -/
def classify (fs : Fs) (_platform : Platform) (rawPath : Str) :
    PathClassification :=
  if rawPath = [] ∨ lower rawPath = "n/a".toList then
    ⟨.Invalid, none, none⟩
  else
    match fs rawPath with
    | .error m => ⟨.Invalid, none, some m⟩
    | .found => ⟨.Valid, some rawPath, none⟩
    | .absent =>
      match tryRepair fs (repairCandidates rawPath) with
      | .error m => ⟨.Invalid, none, some m⟩
      | .ok (some q) => ⟨.Repaired, some q, some (repairNoteFor rawPath q)⟩
      | .ok none =>
        if hasFileExtension rawPath then ⟨.Missing, none, none⟩
        else ⟨.Malformed, none, none⟩

/-- Modelled from the spec (§4.2): the Version-Extraction Gate rule table,
ordered, first match wins. -/
def Gate.decide (platform : Platform) (fileKind : FileKind)
    (c : PathClassification) : VersionExtractionDecision :=
  if ¬ (c.status = .Valid ∨ c.status = .Repaired) then
    ⟨false, .PathUnresolved⟩
  else if fileKind = .Executable ∧ platform ≠ .Windows then
    ⟨false, .NotApplicablePlatform⟩
  else if ¬ (fileKind = .Archive ∨ fileKind = .Executable) then
    ⟨false, .FileKindUnsupported⟩
  else ⟨true, .Eligible⟩

/-- A batch classification run: each inventory row (platform, raw path) is
classified in order (spec §5, one pass per row). -/
def batchClassify (fs : Fs) : List (Platform × Str) → List PathClassification
  | [] => []
  | r :: rest => classify fs r.1 r.2 :: batchClassify fs rest

/-! ## Spreadsheet append (`add_real_weblogic_cves.py`) -/

/-- A worksheet as an association list from (row, column) to cell value;
a later write to the same key shadows the earlier one. -/
abbrev Cells := List ((Nat × Nat) × Str)

/-- Read a cell value, the embedding of `sheet.cell(row, column).value`. -/
def getCell (cs : Cells) (r c : Nat) : Option Str :=
  (cs.find? (fun e => e.1 = (r, c))).map (·.2)

/-- Write a cell value, the embedding of `sheet.cell(row, column, value)`. -/
def setCell (cs : Cells) (r c : Nat) (v : Str) : Cells :=
  ((r, c), v) :: cs

/-- `sheet.max_row`: the largest row index holding a cell, at least 1. -/
def maxRow (cs : Cells) : Nat := cs.foldl (fun m e => max m e.1.1) 1

/-- `sheet.max_column`: the largest column index holding a cell, at least 1. -/
def maxCol (cs : Cells) : Nat := cs.foldl (fun m e => max m e.1.2) 1

/-- Embedding of lines 131-136 of `add_real_weblogic_cves.py`: scan row 1
across the columns and record `header value ↦ column`; a repeated header
keeps the later column, as Python dict assignment does (the later column is
prepended, and `lookup` finds it first). -/
def headersOf (cs : Cells) : List (Str × Nat) :=
  (List.range' 1 (maxCol cs)).foldl (fun acc col =>
    match getCell cs 1 col with
    | some h => (h, col) :: acc
    | none => acc) []

/-- Embedding of the inner loop of lines 145-150: write each (column-name,
value) pair of one test case into row `rowNum`, skipping names that are not
in the header map. -/
def writeCase (headers : List (Str × Nat)) (rowNum : Nat) :
    List (Str × Str) → Cells → Cells
  | [], cs => cs
  | nv :: rest, cs =>
    writeCase headers rowNum rest
      (match headers.lookup nv.1 with
       | some col => setCell cs rowNum col nv.2
       | none => cs)

/-- Embedding of the outer loop of lines 141-148: case `i` goes to row
`last_row + 1 + i`. -/
def addCases (headers : List (Str × Nat)) :
    Nat → List (List (Str × Str)) → Cells → Cells
  | _, [], cs => cs
  | rowNum, tc :: rest, cs =>
    addCases headers (rowNum + 1) rest (writeCase headers rowNum tc cs)

/-- The hard-coded `real_weblogic_cves` table of `add_real_weblogic_cves.py`
(lines 29-129), in dict insertion order. -/
def realWeblogicCves : List (List (Str × Str)) :=
  [ [ ("AFFECTED_PLATFORMS".toList, "Windows Server 2022".toList),
      ("XTRACT_PATH".toList, "C:\\Oracle\\Middleware\\Oracle_Home\\wlserver\\server\\lib\\weblogic.jar".toList),
      ("HOSTNAME".toList, "weblogic-prod-01".toList),
      ("CVE".toList, "CVE-2024-20931".toList) ],
    [ ("AFFECTED_PLATFORMS".toList, "Linux".toList),
      ("XTRACT_PATH".toList, "/opt/oracle/middleware/wlserver/server/lib/weblogic.jar".toList),
      ("HOSTNAME".toList, "weblogic-prod-02".toList),
      ("CVE".toList, "CVE-2024-21006".toList) ],
    [ ("AFFECTED_PLATFORMS".toList, "Windows Server 2019".toList),
      ("XTRACT_PATH".toList, "C:\\Oracle\\Middleware\\wlserver_12.2\\server\\lib\\weblogic.jar".toList),
      ("HOSTNAME".toList, "weblogic-test-01".toList),
      ("CVE".toList, "CVE-2023-21839".toList) ],
    [ ("AFFECTED_PLATFORMS".toList, "Linux".toList),
      ("XTRACT_PATH".toList, "/u01/oracle/middleware/wlserver/server/lib/weblogic.jar".toList),
      ("HOSTNAME".toList, "weblogic-test-02".toList),
      ("CVE".toList, "CVE-2023-21931".toList) ],
    [ ("AFFECTED_PLATFORMS".toList, "Windows Server 2022".toList),
      ("XTRACT_PATH".toList, "C:\\Oracle\\Middleware\\wlserver\\server\\lib\\wls-api.jar".toList),
      ("HOSTNAME".toList, "weblogic-dev-01".toList),
      ("CVE".toList, "CVE-2023-22067".toList) ],
    [ ("AFFECTED_PLATFORMS".toList, "Linux".toList),
      ("XTRACT_PATH".toList, "/opt/weblogic/wlserver/server/lib/weblogic.jar".toList),
      ("HOSTNAME".toList, "weblogic-stage-01".toList),
      ("CVE".toList, "CVE-2022-21371".toList) ],
    [ ("AFFECTED_PLATFORMS".toList, "Windows Server 2019".toList),
      ("XTRACT_PATH".toList, "C:\\WebLogic\\wlserver\\server\\lib\\weblogic.jar".toList),
      ("HOSTNAME".toList, "weblogic-stage-02".toList),
      ("CVE".toList, "CVE-2022-21497".toList) ],
    [ ("AFFECTED_PLATFORMS".toList, "Linux".toList),
      ("XTRACT_PATH".toList, "/home/oracle/middleware/wlserver/server/lib/weblogic.jar".toList),
      ("HOSTNAME".toList, "weblogic-backup-01".toList),
      ("CVE".toList, "CVE-2022-39408".toList) ],
    [ ("AFFECTED_PLATFORMS".toList, "Windows Server 2016".toList),
      ("XTRACT_PATH".toList, "C:\\Oracle\\Middleware\\wlserver_12.1\\server\\lib\\weblogic.jar".toList),
      ("HOSTNAME".toList, "weblogic-legacy-01".toList),
      ("CVE".toList, "CVE-2021-2109".toList) ],
    [ ("AFFECTED_PLATFORMS".toList, "Linux".toList),
      ("XTRACT_PATH".toList, "/opt/oracle/wlserver/server/lib/weblogic.jar".toList),
      ("HOSTNAME".toList, "weblogic-legacy-02".toList),
      ("CVE".toList, "CVE-2021-2394".toList) ],
    [ ("AFFECTED_PLATFORMS".toList, "Windows Server 2019".toList),
      ("XTRACT_PATH".toList, "C:\\Oracle\\wlserver\\server\\lib\\wlthint3client.jar".toList),
      ("HOSTNAME".toList, "weblogic-cluster-01".toList),
      ("CVE".toList, "CVE-2021-35587".toList) ],
    [ ("AFFECTED_PLATFORMS".toList, "Linux".toList),
      ("XTRACT_PATH".toList, "/u01/app/oracle/middleware/wlserver/server/lib/weblogic.jar".toList),
      ("HOSTNAME".toList, "weblogic-cluster-02".toList),
      ("CVE".toList, "CVE-2020-2883".toList) ],
    [ ("AFFECTED_PLATFORMS".toList, "Windows Server 2016".toList),
      ("XTRACT_PATH".toList, "C:\\Oracle\\Middleware\\Oracle_Home\\wlserver\\server\\lib\\weblogic.jar".toList),
      ("HOSTNAME".toList, "weblogic-dmz-01".toList),
      ("CVE".toList, "CVE-2020-14750".toList) ],
    [ ("AFFECTED_PLATFORMS".toList, "Linux".toList),
      ("XTRACT_PATH".toList, "/opt/bea/wlserver/server/lib/weblogic.jar".toList),
      ("HOSTNAME".toList, "weblogic-dmz-02".toList),
      ("CVE".toList, "CVE-2020-14756".toList) ],
    [ ("AFFECTED_PLATFORMS".toList, "Windows Server 2019".toList),
      ("XTRACT_PATH".toList, "C:\\WebLogic\\Oracle_Home\\wlserver\\server\\lib\\weblogic.jar".toList),
      ("HOSTNAME".toList, "weblogic-internal-01".toList),
      ("CVE".toList, "CVE-2020-14825".toList) ] ]

/-- Embedding of `add_real_weblogic_cves` lines 131-148: read the header map
and the current last row, then write the hard-coded test cases starting at
the row after the last one. -/
def add_real_weblogic_cves (cs : Cells) : Cells :=
  addCases (headersOf cs) (maxRow cs + 1) realWeblogicCves cs

/-! ## Lemmas about the advisory scanner -/

lemma rdropWhile_pre (p : Char → Bool) (l : Str) :
    (l.reverse.dropWhile p).reverse <+: l := by
  have h : l.reverse.dropWhile p <:+ l.reverse := List.dropWhile_suffix p
  have h2 := List.reverse_prefix.mpr h
  rwa [List.reverse_reverse] at h2

lemma trim_sub (s : Str) : trim s <:+: s :=
  ((rdropWhile_pre Char.isWhitespace (s.dropWhile Char.isWhitespace)).isInfix).trans
    (List.dropWhile_suffix Char.isWhitespace).isInfix

lemma mem_splitPAux_sub {p : Char → Bool} {t : Str} :
    ∀ {s cur : Str}, t ∈ splitPAux p cur s → t <:+: cur.reverse ++ s := by
  intro s
  induction s with
  | nil =>
    intro cur h
    simp only [splitPAux, List.mem_singleton] at h
    subst h
    rw [List.append_nil]
  | cons c rest ih =>
    intro cur h
    simp only [splitPAux] at h
    by_cases hpc : p c
    · rw [if_pos hpc] at h
      rcases List.mem_cons.mp h with h | h
      · subst h
        exact (List.prefix_append cur.reverse (c :: rest)).isInfix
      · have h1 := @ih [] h
        simp only [List.reverse_nil, List.nil_append] at h1
        exact (h1.trans (List.suffix_cons c rest).isInfix).trans
          (List.suffix_append cur.reverse (c :: rest)).isInfix
    · rw [if_neg hpc] at h
      have h1 := @ih (c :: cur) h
      simpa [List.append_assoc] using h1

lemma mem_splitP_sub {p : Char → Bool} {t s : Str} (h : t ∈ splitP p s) :
    t <:+: s := by
  have h1 := @mem_splitPAux_sub p t s [] h
  simpa using h1

lemma containsSub_iff {n h : Str} : containsSub n h = true ↔ n <:+: h := by
  induction h with
  | nil => simp [containsSub, List.isEmpty_iff]
  | cons c rest ih => simp [containsSub, List.infix_cons_iff, ih]

lemma sub_map_exists {f : Char → Char} {t s : Str} (h : t <:+: s.map f) :
    ∃ t₀, t₀ <:+: s ∧ t₀.map f = t := by
  obtain ⟨pre, suf, hps⟩ := h
  have h1 : s.map f = pre ++ (t ++ suf) := by
    rw [← hps, List.append_assoc]
  obtain ⟨s₁, s₂, hs, _, hm2⟩ := List.map_eq_append_iff.mp h1
  obtain ⟨s₃, s₄, hs2, hm3, _⟩ := List.map_eq_append_iff.mp hm2
  exact ⟨s₃, ⟨s₁, s₄, by rw [List.append_assoc, ← hs2, ← hs]⟩, hm3⟩

/-- If a token of the scanner's working list contains `oracle.com` in
lowercase, then so does the whole references text: the delimiter rewrite only
introduces newline characters, which do not occur in `oracle.com`. -/
lemma oracle_sub_of_token {s t : Str} (ht : t ∈ tokensOf s)
    (h : oracleL <:+: lower t) : oracleL <:+: lower s := by
  obtain ⟨u, hu, rfl⟩ := List.mem_map.mp ht
  have h1 : u <:+: s.map delimToNl := mem_splitP_sub hu
  have h2 : lower (trim u) <:+: lower u := List.IsInfix.map Char.toLower (trim_sub u)
  have h3 : lower u <:+: (s.map delimToNl).map Char.toLower :=
    List.IsInfix.map Char.toLower h1
  have h4 : oracleL <:+: (s.map delimToNl).map Char.toLower := (h.trans h2).trans h3
  rw [List.map_map] at h4
  obtain ⟨t₀, hts, hmap⟩ := sub_map_exists h4
  have hchars : ∀ c ∈ t₀, Char.toLower (delimToNl c) = Char.toLower c := by
    intro c hc
    have hmem : (Char.toLower ∘ delimToNl) c ∈ oracleL := by
      rw [← hmap]
      exact List.mem_map_of_mem _ hc
    by_cases hdel : c = ';' ∨ c = ','
    · exfalso
      have hnl : (Char.toLower ∘ delimToNl) c = '\n' := by
        have : delimToNl c = '\n' := by rw [delimToNl, if_pos hdel]
        simp only [Function.comp_apply, this]
        decide
      rw [hnl] at hmem
      exact absurd hmem (by decide)
    · have : delimToNl c = c := by rw [delimToNl, if_neg hdel]
      simp [Function.comp, this]
  have hlow : t₀.map Char.toLower = oracleL := by
    rw [← hmap]
    exact (List.map_congr_left fun c hc =>
      (hchars c hc).symm).symm ▸ rfl
  have : oracleL <:+: s.map Char.toLower := by
    rw [← hlow]
    exact List.IsInfix.map Char.toLower hts
  exact this

lemma keep_eq (t : Str) :
    (!t.isEmpty && containsSub oracleL (lower t)) = containsSub oracleL (lower t) := by
  cases hc : containsSub oracleL (lower t)
  · simp
  · have h1 : oracleL <:+: lower t := containsSub_iff.mp hc
    have h2 : t ≠ [] := by
      rintro rfl
      simp only [lower, List.map_nil, List.infix_nil] at h1
      exact absurd h1 (by decide)
    simp [List.isEmpty_iff, h2]

lemma splitPAux_delim :
    ∀ (s cur : Str),
      splitPAux (fun c => c = '\n') cur (s.map delimToNl)
        = splitPAux (fun c => c = ';' || c = ',' || c = '\n') cur s := by
  intro s
  induction s with
  | nil => intro cur; rfl
  | cons c rest ih =>
    intro cur
    by_cases h1 : c = ';'
    · subst h1
      simp only [List.map_cons, splitPAux, delimToNl]
      norm_num
      exact ih []
    · by_cases h2 : c = ','
      · subst h2
        simp only [List.map_cons, splitPAux, delimToNl]
        norm_num
        exact ih []
      · by_cases h3 : c = '\n'
        · subst h3
          simp only [List.map_cons, splitPAux, delimToNl]
          norm_num
          exact ih []
        · have hd : delimToNl c = c := by
            rw [delimToNl, if_neg (by tauto)]
          simp only [List.map_cons, splitPAux, hd, h1, h2, h3]
          norm_num [h1, h2, h3]
          exact ih (c :: cur)

lemma splitNl_delim (s : Str) :
    splitNl (s.map delimToNl)
      = splitP (fun c => c = ';' || c = ',' || c = '\n') s :=
  splitPAux_delim s []

/-! ## Concrete inputs used in the claim theorems -/

def exRefs : Str := "http://x.com/a; http://oracle.com/b,http://oracle.com/c".toList

def exOracA : Str := "http://oracle.com/a".toList

def exOracB : Str := "http://oracle.com/b".toList

def exOracC : Str := "http://oracle.com/c".toList

def newlineRefs : Str := "http://oracle.com/a\ngarbage".toList

/-! ## Claim C1 -/

/-- C1 counterexample: on a references text containing a literal newline the
implementation splits at the newline (the delimiter rewrite maps `;` and `,`
to `'\n'` and then splits on `'\n'`), while the algorithm as claimed — split
on `;` and `,` only — keeps the newline inside the token, so the two disagree
on `"http://oracle.com/a\ngarbage"`. -/
theorem c1_split_on_semicolon_comma_only_ce :
    extractAdvisories newlineRefs ≠ extractAdvisoriesClaimed newlineRefs ∧
    extractAdvisories newlineRefs = [exOracA] ∧
    extractAdvisoriesClaimed newlineRefs = [newlineRefs] := by decide

/-- C1 (amended): `extractAdvisories` splits the references text on `;`, `,`
and newline, trims whitespace from each token, drops empty tokens, and
retains exactly the tokens whose lowercase form contains `oracle.com`,
preserving order and duplicates; `extractAdvisories` of the empty text is
empty, and on `"http://x.com/a; http://oracle.com/b,http://oracle.com/c"` it
returns exactly the two Oracle URLs in order. -/
theorem c1_extractAdvisories_amended :
    (∀ refsStr : Str, extractAdvisories refsStr = extractAdvisoriesAmended refsStr) ∧
    extractAdvisories [] = [] ∧
    extractAdvisories exRefs = [exOracB, exOracC] := by
  refine ⟨?_, by decide, by decide⟩
  intro refsStr
  unfold extractAdvisories extractAdvisoriesAmended tokensOf
  rw [splitNl_delim]
  by_cases hg : containsSub oracleL (lower refsStr) = true
  · rw [if_pos hg]
    exact List.filter_congr fun t _ => (keep_eq t).symm
  · rw [if_neg hg]
    symm
    rw [List.filter_eq_nil_iff]
    intro t ht hq
    rw [← splitNl_delim] at ht
    rw [keep_eq t] at hq
    exact hg (containsSub_iff.mpr
      (oracle_sub_of_token (ht : t ∈ tokensOf refsStr) (containsSub_iff.mp hq)))

/-! ## Claim C2 -/

/-- C2: for every CveRecord (built, as the spec's data model states, with its
`oracleAdvisories` column holding the advisories extracted from its
`references` column), every advisory is one of the tokens obtained from the
references text, and contains `oracle.com` case-insensitively. -/
theorem c2_oracleAdvisories_invariant :
    ∀ (id desc refs sw : Str) (flag : Option WLFlag) (a : Str),
      a ∈ (mkCveRecord id desc refs sw flag).oracleAdvisories →
      a ∈ tokensOf (mkCveRecord id desc refs sw flag).references ∧
        oracleL <:+: lower a := by
  intro id desc refs sw flag a ha
  simp only [mkCveRecord] at ha ⊢
  unfold extractAdvisories at ha
  by_cases hg : containsSub oracleL (lower refs) = true
  · rw [if_pos hg] at ha
    have h := List.mem_filter.mp ha
    exact ⟨h.1, containsSub_iff.mp h.2⟩
  · rw [if_neg hg] at ha
    cases ha

/-- Witness for C2 at a concrete record. -/
theorem c2_oracleAdvisories_invariant_witness :
    exOracA ∈ (mkCveRecord [] [] exOracA [] none).oracleAdvisories ∧
    (exOracA ∈ tokensOf (mkCveRecord [] [] exOracA [] none).references ∧
      oracleL <:+: lower exOracA) :=
  ⟨by decide, c2_oracleAdvisories_invariant [] [] exOracA [] none exOracA (by decide)⟩
/-! ## Concrete classifier inputs -/

def sentinelRaw : Str := "N/A".toList

def wlJar : Str := "/opt/oracle/middleware/wlserver/server/lib/weblogic.jar".toList

def wlCorrupted : Str :=
  "/opt/oracle/middleware/wlserver/server/lib/weblogic.jar extra_garbage_data".toList

/-- A filesystem on which exactly the WebLogic jar exists. -/
def wlFs : Fs := fun p => if p = wlJar then .found else .absent

/-- A filesystem on which every path exists. -/
def allFoundFs : Fs := fun _ => .found

def exJarPath : Str := "/opt/app/lib.jar".toList

def errMsg : Str := "permission denied".toList

/-- A filesystem on which every probe fails with an access error. -/
def errFs : Fs := fun _ => .error errMsg

/-! ## Lemmas about the classifier -/

lemma batchClassify_eq_map :
    ∀ (fs : Fs) (rows : List (Platform × Str)),
      batchClassify fs rows = rows.map fun r => classify fs r.1 r.2 := by
  intro fs rows
  induction rows with
  | nil => rfl
  | cons r rest ih => simp [batchClassify, ih]

lemma pairwise_filterMap_of {α β : Type} (R : α → α → Prop) (S : β → β → Prop)
    (f : α → Option β)
    (H : ∀ a b x y, R a b → f a = some x → f b = some y → S x y) :
    ∀ {l : List α}, l.Pairwise R → (l.filterMap f).Pairwise S := by
  intro l
  induction l with
  | nil => intro _; simp
  | cons a rest ih =>
    intro hp
    rcases List.pairwise_cons.mp hp with ⟨hhead, htail⟩
    rw [List.filterMap_cons]
    cases hfa : f a with
    | none => exact ih htail
    | some x =>
      rw [List.pairwise_cons]
      refine ⟨?_, ih htail⟩
      intro y hy
      obtain ⟨b, hb, hfb⟩ := List.mem_filterMap.mp hy
      exact H a b x y (hhead b hb) hfa hfb

/-- The repair candidates are listed longest first. -/
lemma repairCandidates_sorted (p : Str) :
    (repairCandidates p).Pairwise fun a b => b.length ≤ a.length := by
  unfold repairCandidates
  refine pairwise_filterMap_of (fun a b => b < a) _ _ ?_ ?_
  · intro a b x y hab hfa hfb
    have hx : x = p.take a := by
      by_cases h : (nextCharIsWs p a && plausibleExt (p.take a)) = true
      · rw [if_pos h] at hfa
        injection hfa with h'
        exact h'.symm
      · rw [if_neg h] at hfa; cases hfa
    have hy : y = p.take b := by
      by_cases h : (nextCharIsWs p b && plausibleExt (p.take b)) = true
      · rw [if_pos h] at hfb
        injection hfb with h'
        exact h'.symm
      · rw [if_neg h] at hfb; cases hfb
    subst hx; subst hy
    simp only [List.length_take]
    exact min_le_min (Nat.le_of_lt hab) le_rfl
  · rw [List.pairwise_reverse]
    exact List.pairwise_lt_range p.length

/-- `tryRepair` picks the first existing candidate; on a longest-first list
that is a longest existing one. -/
lemma tryRepair_longest {fs : Fs} :
    ∀ {l : List Str}, l.Pairwise (fun a b => b.length ≤ a.length) →
      ∀ {q : Str}, tryRepair fs l = .ok (some q) →
        ∀ q' ∈ l, fs q' = .found → q'.length ≤ q.length := by
  intro l
  induction l with
  | nil =>
    intro _ q h
    simp [tryRepair] at h
  | cons x rest ih =>
    intro hp q h q' hq' hfs
    rcases List.pairwise_cons.mp hp with ⟨hhead, htail⟩
    cases hx : fs x with
    | found =>
      simp only [tryRepair, hx, Except.ok.injEq, Option.some.injEq] at h
      subst h
      rcases List.mem_cons.mp hq' with h' | h'
      · subst h'; exact le_rfl
      · exact hhead q' h'
    | absent =>
      simp only [tryRepair, hx] at h
      rcases List.mem_cons.mp hq' with h' | h'
      · subst h'; rw [hx] at hfs; cases hfs
      · exact ih htail h q' h' hfs
    | error m =>
      simp only [tryRepair, hx] at h
      cases h

/-! ## Claim C3 -/

/-- C3: an empty raw path and the sentinel `N/A` (case-insensitive) classify
as `Invalid` on every platform, with no dependence on the filesystem (no
existence check or repair is attempted). -/
theorem c3_empty_sentinel_invalid :
    ∀ (fs fs' : Fs) (platform platform' : Platform) (rawPath : Str),
      rawPath = [] ∨ lower rawPath = "n/a".toList →
      classify fs platform rawPath = ⟨.Invalid, none, none⟩ ∧
        classify fs platform rawPath = classify fs' platform' rawPath := by
  intro fs fs' platform platform' rawPath h
  have e : ∀ (g : Fs) (pl : Platform), classify g pl rawPath = ⟨.Invalid, none, none⟩ := by
    intro g pl
    unfold classify
    rw [if_pos h]
  exact ⟨e fs platform, by rw [e fs platform, e fs' platform']⟩

/-- Witness for C3 at the sentinel path on a filesystem where it even exists. -/
theorem c3_empty_sentinel_invalid_witness :
    (sentinelRaw = [] ∨ lower sentinelRaw = "n/a".toList) ∧
    (classify allFoundFs .Linux sentinelRaw = ⟨.Invalid, none, none⟩ ∧
      classify allFoundFs .Linux sentinelRaw = classify errFs .Windows sentinelRaw) :=
  ⟨by decide, c3_empty_sentinel_invalid allFoundFs errFs .Linux .Windows sentinelRaw (by decide)⟩

/-! ## Claim C4 -/

/-- C4: the Version-Extraction Gate never attempts extraction when the
classification status is `Invalid`, `Missing` or `Malformed`; for those it
returns `attempt = false` with reason `PathUnresolved`. -/
theorem c4_gate_never_attempts_unresolved :
    ∀ (platform : Platform) (fileKind : FileKind) (c : PathClassification),
      (c.status = .Invalid ∨ c.status = .Missing ∨ c.status = .Malformed) →
      Gate.decide platform fileKind c = ⟨false, .PathUnresolved⟩ := by
  intro platform fileKind c h
  have hcond : ¬ (c.status = .Valid ∨ c.status = .Repaired) := by
    rcases h with h | h | h <;> simp [h]
  unfold Gate.decide
  rw [if_pos hcond]

/-- Witness for C4 on a `Missing` classification. -/
theorem c4_gate_never_attempts_unresolved_witness :
    ((⟨.Missing, none, none⟩ : PathClassification).status = .Invalid ∨
      (⟨.Missing, none, none⟩ : PathClassification).status = .Missing ∨
      (⟨.Missing, none, none⟩ : PathClassification).status = .Malformed) ∧
    Gate.decide .Linux .Archive ⟨.Missing, none, none⟩ = ⟨false, .PathUnresolved⟩ :=
  ⟨by decide, c4_gate_never_attempts_unresolved .Linux .Archive ⟨.Missing, none, none⟩ (by decide)⟩

/-! ## Claim C5 -/

/-- C5: for a resolved classification (`Valid` or `Repaired`), an
`Executable` file kind on a non-Windows platform is never inspected: the gate
returns `attempt = false` with reason `NotApplicablePlatform`, even though
the file exists. -/
theorem c5_executable_nonwindows_skipped :
    ∀ (platform : Platform) (c : PathClassification),
      (c.status = .Valid ∨ c.status = .Repaired) →
      platform ≠ .Windows →
      Gate.decide platform .Executable c = ⟨false, .NotApplicablePlatform⟩ := by
  intro platform c hs hp
  unfold Gate.decide
  rw [if_neg (not_not_intro hs), if_pos ⟨rfl, hp⟩]

/-- Witness for C5: an existing executable on a Linux host. -/
theorem c5_executable_nonwindows_skipped_witness :
    ((⟨.Valid, some exJarPath, none⟩ : PathClassification).status = .Valid ∨
      (⟨.Valid, some exJarPath, none⟩ : PathClassification).status = .Repaired) ∧
    (Platform.Linux ≠ .Windows) ∧
    Gate.decide .Linux .Executable ⟨.Valid, some exJarPath, none⟩
      = ⟨false, .NotApplicablePlatform⟩ :=
  ⟨by decide, by decide,
    c5_executable_nonwindows_skipped .Linux ⟨.Valid, some exJarPath, none⟩ (by decide) (by decide)⟩

/-! ## Claim C6 -/

/-- C6: on a Linux filesystem where the WebLogic jar exists, the corrupted
path with trailing garbage repairs to the jar with status `Repaired`, the
derived file kind of the jar is `Archive`, and the gate then returns
`attempt = true` with reason `Eligible`; in general a successful repair picks
a longest existing candidate (never over-truncating). -/
theorem c6_weblogic_jar_repair :
    (classify wlFs .Linux wlCorrupted).status = .Repaired ∧
    (classify wlFs .Linux wlCorrupted).resolvedPath = some wlJar ∧
    fileKindOf wlJar = .Archive ∧
    Gate.decide .Linux .Archive (classify wlFs .Linux wlCorrupted) = ⟨true, .Eligible⟩ ∧
    (∀ (fs : Fs) (p q : Str), tryRepair fs (repairCandidates p) = .ok (some q) →
      ∀ q' ∈ repairCandidates p, fs q' = .found → q'.length ≤ q.length) := by
  refine ⟨by decide, by decide, by decide, by decide, ?_⟩
  intro fs p q h q' hq' hfs
  exact tryRepair_longest (repairCandidates_sorted p) h q' hq' hfs

/-- Witness for C6's general longest-prefix conjunct at the concrete repair. -/
theorem c6_weblogic_jar_repair_witness :
    tryRepair wlFs (repairCandidates wlCorrupted) = .ok (some wlJar) ∧
    wlJar ∈ repairCandidates wlCorrupted ∧
    wlFs wlJar = .found ∧
    wlJar.length ≤ wlJar.length :=
  ⟨by decide, by decide, by decide,
    c6_weblogic_jar_repair.2.2.2.2 wlFs wlCorrupted wlJar (by decide) wlJar
      (by decide) (by decide)⟩

/-! ## Claim C7 -/

/-- C7 counterexample: the sentinel path `N/A` can exist verbatim on the
filesystem, yet the classifier returns `Invalid`, not `Valid`, because the
sentinel rule precedes the existence check. -/
theorem c7_exists_verbatim_ce :
    allFoundFs sentinelRaw = .found ∧
    (classify allFoundFs .Linux sentinelRaw).status ≠ .Valid ∧
    (classify allFoundFs .Linux sentinelRaw).status = .Invalid := by decide

/-- C7 (amended): for every platform and every raw path that is neither
empty nor the sentinel `N/A` (case-insensitive), if the raw path exists
verbatim the classifier returns `Valid` with `resolvedPath = rawPath` — in
particular never `Repaired`. -/
theorem c7_exists_verbatim_amended :
    ∀ (fs : Fs) (platform : Platform) (rawPath : Str),
      rawPath ≠ [] → lower rawPath ≠ "n/a".toList →
      fs rawPath = .found →
      classify fs platform rawPath = ⟨.Valid, some rawPath, none⟩ := by
  intro fs platform rawPath h1 h2 hfs
  unfold classify
  rw [if_neg (by tauto)]
  rw [hfs]

/-- Witness for C7 on an existing jar path. -/
theorem c7_exists_verbatim_amended_witness :
    (exJarPath ≠ [] ∧ lower exJarPath ≠ "n/a".toList ∧ allFoundFs exJarPath = .found) ∧
    classify allFoundFs .Linux exJarPath = ⟨.Valid, some exJarPath, none⟩ :=
  ⟨by decide,
    c7_exists_verbatim_amended allFoundFs .Linux exJarPath (by decide) (by decide) (by decide)⟩

/-! ## Claim C8 -/

/-- C8: a filesystem access error during classification — whether on the
verbatim probe or on a repair-candidate probe — yields status `Invalid` with
the error message recorded in `repairNote`; and a batch run is row-local:
it classifies every row independently, producing one classification per row
with no influence from other rows. -/
theorem c8_probe_errors_rowlocal :
    (∀ (fs : Fs) (platform : Platform) (p m : Str),
        p ≠ [] → lower p ≠ "n/a".toList → fs p = .error m →
        classify fs platform p = ⟨.Invalid, none, some m⟩) ∧
    (∀ (fs : Fs) (platform : Platform) (p m : Str),
        p ≠ [] → lower p ≠ "n/a".toList → fs p = .absent →
        tryRepair fs (repairCandidates p) = .error m →
        classify fs platform p = ⟨.Invalid, none, some m⟩) ∧
    (∀ (fs : Fs) (rows : List (Platform × Str)),
        batchClassify fs rows = rows.map fun r => classify fs r.1 r.2) := by
  refine ⟨?_, ?_, batchClassify_eq_map⟩
  · intro fs platform p m h1 h2 hfs
    unfold classify
    rw [if_neg (by tauto)]
    rw [hfs]
  · intro fs platform p m h1 h2 hfs hrep
    unfold classify
    rw [if_neg (by tauto)]
    rw [hfs, hrep]

/-- Witness for C8: a permission-denied probe on a well-formed path. -/
theorem c8_probe_errors_rowlocal_witness :
    (exJarPath ≠ [] ∧ lower exJarPath ≠ "n/a".toList ∧ errFs exJarPath = .error errMsg) ∧
    classify errFs .Linux exJarPath = ⟨.Invalid, none, some errMsg⟩ :=
  ⟨by decide,
    c8_probe_errors_rowlocal.1 errFs .Linux exJarPath errMsg (by decide) (by decide) (by decide)⟩

/-! ## Claim C9 -/

/-- C9: the classifier is deterministic and idempotent — any two runs on the
same (filesystem, platform, raw path) agree — and a batch run equals the
per-row map of the single-row classifier, so no row depends on any other row
or on shared state. -/
theorem c9_classify_deterministic :
    (∀ (fs : Fs) (platform : Platform) (rawPath : Str),
        classify fs platform rawPath = classify fs platform rawPath) ∧
    (∀ (fs : Fs) (rows : List (Platform × Str)),
        batchClassify fs rows = rows.map fun r => classify fs r.1 r.2) :=
  ⟨fun _ _ _ => rfl, batchClassify_eq_map⟩

/-! ## Lemmas about the spreadsheet append -/

/-- The four column names the appended test cases use. -/
def cveColumns : List Str :=
  ["AFFECTED_PLATFORMS".toList, "XTRACT_PATH".toList, "HOSTNAME".toList, "CVE".toList]

lemma getCell_setCell_ne {cs : Cells} {r c r' c' : Nat} {v : Str}
    (h : ¬ (r = r' ∧ c = c')) :
    getCell (setCell cs r' c' v) r c = getCell cs r c := by
  unfold getCell setCell
  rw [List.find?_cons_of_neg]
  simp only [decide_eq_true_eq, Prod.mk.injEq]
  intro hh
  exact h ⟨hh.1.symm, hh.2.symm⟩

lemma writeCase_ne_row {headers : List (Str × Nat)} {rowNum : Nat} :
    ∀ (tc : List (Str × Str)) (cs : Cells) {r c : Nat}, r ≠ rowNum →
      getCell (writeCase headers rowNum tc cs) r c = getCell cs r c := by
  intro tc
  induction tc with
  | nil => intro cs r c _; rfl
  | cons nv rest ih =>
    intro cs r c h
    rw [writeCase]
    rw [ih _ h]
    cases hl : headers.lookup nv.1 with
    | none => rfl
    | some col => exact getCell_setCell_ne fun hh => h hh.1

lemma addCases_preserve {headers : List (Str × Nat)} :
    ∀ (tcs : List (List (Str × Str))) (rowNum : Nat) (cs : Cells) {r c : Nat},
      r < rowNum →
      getCell (addCases headers rowNum tcs cs) r c = getCell cs r c := by
  intro tcs
  induction tcs with
  | nil => intro rowNum cs r c _; rfl
  | cons tc rest ih =>
    intro rowNum cs r c h
    rw [addCases]
    rw [ih (rowNum + 1) _ (Nat.lt_succ_of_lt h)]
    exact writeCase_ne_row tc cs (Nat.ne_of_lt h)

lemma writeCase_changed {headers : List (Str × Nat)} {rowNum : Nat} :
    ∀ (tc : List (Str × Str)) (cs : Cells) {r c : Nat},
      getCell (writeCase headers rowNum tc cs) r c ≠ getCell cs r c →
      r = rowNum ∧ ∃ nv ∈ tc, headers.lookup nv.1 = some c := by
  intro tc
  induction tc with
  | nil => intro cs r c h; exact absurd rfl h
  | cons nv rest ih =>
    intro cs r c h
    rw [writeCase] at h
    cases hl : headers.lookup nv.1 with
    | none =>
      rw [hl] at h
      obtain ⟨hr, nv', hmem, hcol⟩ := ih _ h
      exact ⟨hr, nv', List.mem_cons_of_mem _ hmem, hcol⟩
    | some col =>
      rw [hl] at h
      by_cases hmid : getCell (setCell cs rowNum col nv.2) r c = getCell cs r c
      · have h' : getCell (writeCase headers rowNum rest (setCell cs rowNum col nv.2)) r c
            ≠ getCell (setCell cs rowNum col nv.2) r c := by
          rw [hmid]; exact h
        obtain ⟨hr, nv', hmem, hcol⟩ := ih _ h'
        exact ⟨hr, nv', List.mem_cons_of_mem _ hmem, hcol⟩
      · have hpair : r = rowNum ∧ c = col := by
          by_contra hcon
          exact hmid (getCell_setCell_ne hcon)
        exact ⟨hpair.1, nv, List.mem_cons_self _ _, by rw [hl, hpair.2]⟩

lemma addCases_changed {headers : List (Str × Nat)} :
    ∀ (tcs : List (List (Str × Str))) (rowNum : Nat) (cs : Cells) {r c : Nat},
      getCell (addCases headers rowNum tcs cs) r c ≠ getCell cs r c →
      rowNum ≤ r ∧ ∃ tc ∈ tcs, ∃ nv ∈ tc, headers.lookup nv.1 = some c := by
  intro tcs
  induction tcs with
  | nil => intro rowNum cs r c h; exact absurd rfl h
  | cons tc rest ih =>
    intro rowNum cs r c h
    rw [addCases] at h
    by_cases hmid : getCell (writeCase headers rowNum tc cs) r c = getCell cs r c
    · have h' : getCell (addCases headers (rowNum + 1) rest (writeCase headers rowNum tc cs)) r c
          ≠ getCell (writeCase headers rowNum tc cs) r c := by
        rw [hmid]; exact h
      obtain ⟨hle, tc', hmem, hrest⟩ := ih (rowNum + 1) _ h'
      exact ⟨Nat.le_of_succ_le hle, tc', List.mem_cons_of_mem _ hmem, hrest⟩
    · obtain ⟨hr, hex⟩ := writeCase_changed tc cs hmid
      exact ⟨le_of_eq hr.symm, tc, List.mem_cons_self _ _, hex⟩

lemma le_foldl_maxRow : ∀ (cs : Cells) (a : Nat),
    a ≤ cs.foldl (fun m e => max m e.1.1) a := by
  intro cs
  induction cs with
  | nil => intro a; exact le_rfl
  | cons x rest ih =>
    intro a
    rw [List.foldl_cons]
    exact le_trans (le_max_left a x.1.1) (ih (max a x.1.1))

lemma mem_row_le_maxRow : ∀ (cs : Cells), ∀ e ∈ cs, e.1.1 ≤ maxRow cs := by
  have key : ∀ (cs : Cells) (a : Nat), ∀ e ∈ cs,
      e.1.1 ≤ cs.foldl (fun m e => max m e.1.1) a := by
    intro cs
    induction cs with
    | nil => intro a e he; cases he
    | cons x rest ih =>
      intro a e he
      rw [List.foldl_cons]
      rcases List.mem_cons.mp he with rfl | he'
      · exact le_trans (le_max_right a e.1.1) (le_foldl_maxRow rest _)
      · exact ih _ e he'
  intro cs e he
  exact key cs 1 e he

lemma realWeblogicCves_columns :
    ∀ tc ∈ realWeblogicCves, ∀ nv ∈ tc, nv.1 ∈ cveColumns := by decide

/-! ## Claim C10 -/

/-- C10: `add_real_weblogic_cves` only appends.  Every cell at a row up to
the pre-existing last data row keeps its value (and every cell present in
the workbook lies at such a row), and any cell whose value differs after the
call lies strictly after the pre-existing last row, in a column whose header
name is one of AFFECTED_PLATFORMS, XTRACT_PATH, HOSTNAME, CVE found in the
header row. -/
theorem c10_add_real_weblogic_cves_append_only :
    (∀ (cs : Cells) (r c : Nat), r ≤ maxRow cs →
        getCell (add_real_weblogic_cves cs) r c = getCell cs r c) ∧
    (∀ (cs : Cells), ∀ e ∈ cs, e.1.1 ≤ maxRow cs) ∧
    (∀ (cs : Cells) (r c : Nat),
        getCell (add_real_weblogic_cves cs) r c ≠ getCell cs r c →
        maxRow cs < r ∧
          ∃ name ∈ cveColumns, (headersOf cs).lookup name = some c) := by
  refine ⟨?_, mem_row_le_maxRow, ?_⟩
  · intro cs r c h
    exact addCases_preserve realWeblogicCves (maxRow cs + 1) cs (Nat.lt_succ_of_le h)
  · intro cs r c h
    obtain ⟨hle, tc, htc, nv, hnv, hcol⟩ :=
      addCases_changed realWeblogicCves (maxRow cs + 1) cs h
    exact ⟨hle, nv.1, realWeblogicCves_columns tc htc nv hnv, hcol⟩

/-- A small concrete sheet: the four headers plus one data row. -/
def sheet0 : Cells :=
  [ ((1, 1), "AFFECTED_PLATFORMS".toList), ((1, 2), "XTRACT_PATH".toList),
    ((1, 3), "HOSTNAME".toList), ((1, 4), "CVE".toList),
    ((2, 1), "Linux".toList) ]

/-- Witness for C10: the pre-existing data cell of `sheet0` is untouched. -/
theorem c10_add_real_weblogic_cves_append_only_witness :
    2 ≤ maxRow sheet0 ∧
    getCell (add_real_weblogic_cves sheet0) 2 1 = getCell sheet0 2 1 :=
  ⟨by decide, c10_add_real_weblogic_cves_append_only.1 sheet0 2 1 (by decide)⟩
